import Mathlib

/-!
Verification development for the consul-kv-syncer synchronization engine.

The development shallowly embeds the engine's data model and operations:
the YAML flattener (`flattenKVPairs` / `processValue`), the cross-source
duplicate detector (`detectDuplicates`), the batch planner
(`createTransactionOps` / `chunkOps`) and the sync executor
(`syncKVPairs` / `syncToConsul`).  Go maps are modelled as association
lists; the remote Consul endpoint is modelled as a function from batch
index to a transport-level result.
-/

/-- A key-value pair (source structure `KVPair`). -/
structure KVPair where
  key : String
  value : String
deriving DecidableEq

/-- A KV operation in a Consul transaction (source structure `TxnKVOp`).
`flags` is the Go `uint64` zero value unless set; `createTransactionOps`
never sets it. -/
structure TxnKVOp where
  verb : String
  key : String
  value : String
  flags : Nat
deriving DecidableEq

/-- A transaction operation (source structure `TxnOp`); the `KV` field is a
nullable pointer in Go, hence `Option`. -/
structure TxnOp where
  kv : Option TxnKVOp
deriving DecidableEq

/-- An error entry of a transaction response (source structure `TxnError`). -/
structure TxnError where
  opIndex : Nat
  what : String
deriving DecidableEq

/-- KV data in a transaction response (source structure `KVData`). -/
structure KVData where
  lockIndex : Nat
  key : String
  flags : Nat
  value : String
  createIndex : Nat
  modifyIndex : Nat
deriving DecidableEq

/-- A successful operation result in a transaction response
(source structure `TxnResult`). -/
structure TxnResult where
  kv : Option KVData
deriving DecidableEq

/-- The response of the Consul transaction API (source structure
`TxnResponse`). -/
structure TxnResponse where
  results : List TxnResult
  errors : List TxnError
deriving DecidableEq

/-- The per-batch outcome record (source structure `BatchResult`).
`hasError` models whether the Go `Error` field is non-nil. -/
structure BatchResult where
  batchIndex : Nat
  success : Bool
  hasError : Bool
  opErrors : List TxnError
  processedOps : Nat
deriving DecidableEq

/-- The aggregate execution summary (source structure `ExecutionSummary`). -/
structure ExecutionSummary where
  totalKeys : Nat
  totalBatches : Nat
  successBatches : Nat
  failedBatches : Nat
  results : List BatchResult
deriving DecidableEq

/-- The source file and value of a key occurrence (source structure
`FileSource`; the `Value` field, though typed as an empty interface in Go,
always receives the string `pair.Value`). -/
structure FileSource where
  filename : String
  value : String
deriving DecidableEq

/-- Information about one duplicated key (source structure `DuplicateInfo`). -/
structure DuplicateInfo where
  key : String
  files : List FileSource
deriving DecidableEq

/-- A map key of dynamic type, as found in Go's `map[interface\x7b\x7d]interface\x7b\x7d`
branch of `processValue`: either a string key or a key of some other
runtime type (which `processInterfaceMap` drops). -/
inductive IKey where
  | istr (s : String)
  | iother
deriving DecidableEq

/-- A decoded YAML value as the flattener consumes it, per the spec's input
model (section 4.1): scalars (string, integer, boolean, null) or nested
mappings, either string-keyed (`map[string]interface\x7b\x7d`) or
dynamically-keyed (`map[interface\x7b\x7d]interface\x7b\x7d`).  Go map iteration order is
unspecified, so a mapping is modelled as an association list whose order
stands for one arbitrary iteration order. -/
inductive YamlValue where
  | str (s : String)
  | int (n : Int)
  | bool (b : Bool)
  | null
  | map (m : List (String × YamlValue))
  | imap (m : List (IKey × YamlValue))

/-- Source function `buildKey`: joins a key onto an accumulated path. -/
def buildKey (pre key : String) : String :=
  if pre = "" then key else pre ++ "/" ++ key

mutual

/-- Source function `flattenKVPairs`: converts a nested mapping to flat
key-value pairs, appending the pairs of each entry in iteration order. -/
def flattenKVPairs (data : List (String × YamlValue)) (pre : String) : List KVPair :=
  match data with
  | [] => []
  | (key, value) :: rest => processValue (buildKey pre key) value ++ flattenKVPairs rest pre

/-- Source function `processValue`: a string-keyed nested mapping is
recursed into via `flattenKVPairs`, a dynamically-keyed mapping via
`processInterfaceMap`, and every other (scalar) value is rendered with
Go's percent-v verb and emitted as a single pair.  Percent-v renders a
string unchanged, an integer in decimal, a boolean as true or false, and
a nil interface value as the text between angle brackets: nil. -/
def processValue (key : String) (value : YamlValue) : List KVPair :=
  match value with
  | .str s => [⟨key, s⟩]
  | .int n => [⟨key, toString n⟩]
  | .bool b => [⟨key, toString b⟩]
  | .null => [⟨key, "<nil>"⟩]
  | .map m => flattenKVPairs m key
  | .imap m => processInterfaceMap key m

/-- Source function `processInterfaceMap`: keeps the string-keyed entries
(dropping others) and flattens them under the accumulated key.  The Go
code first builds `convertedMap` and then calls `flattenKVPairs`; fusing
the conversion into the recursion yields the same pair list and is proved
equal to the two-pass form in `processInterfaceMap_eq_stringEntries`. -/
def processInterfaceMap (key : String) (m : List (IKey × YamlValue)) : List KVPair :=
  match m with
  | [] => []
  | (.istr s, v) :: rest => processValue (buildKey key s) v ++ processInterfaceMap key rest
  | (.iother, _) :: rest => processInterfaceMap key rest

end

/-- The string-keyed entries of a dynamically-keyed mapping, in iteration
order: the contents of `convertedMap` built by the source's
`processInterfaceMap`. -/
def stringEntries (m : List (IKey × YamlValue)) : List (String × YamlValue) :=
  m.filterMap fun kv =>
    match kv.1 with
    | .istr s => some (s, kv.2)
    | .iother => none

/-- Whether a value is a scalar (not a nested collection), the negation of
the two map branches of `processValue`. -/
def isScalar : YamlValue → Bool
  | .map _ => false
  | .imap _ => false
  | _ => true

/-- The rendered text of a scalar value (Go's percent-v verb on the
default branch of `processValue`); `none` on nested collections, which
`processValue` never renders. -/
def renderScalar : YamlValue → Option String
  | .str s => some s
  | .int n => some (toString n)
  | .bool b => some (toString b)
  | .null => some "<nil>"
  | .map _ => none
  | .imap _ => none

mutual

/-- The number of scalar leaves of a value (counting, under a
dynamically-keyed mapping, only string-keyed entries). -/
def leafCount : YamlValue → Nat
  | .map m => leafCountEntries m
  | .imap m => leafCountIEntries m
  | _ => 1

/-- The number of scalar leaves below an entry list. -/
def leafCountEntries : List (String × YamlValue) → Nat
  | [] => 0
  | (_, v) :: rest => leafCount v + leafCountEntries rest

/-- The number of scalar leaves below a dynamically-keyed entry list. -/
def leafCountIEntries : List (IKey × YamlValue) → Nat
  | [] => 0
  | (.istr _, v) :: rest => leafCount v + leafCountIEntries rest
  | (.iother, _) :: rest => leafCountIEntries rest

end

/-- Source function `collectAllKVPairs`: flattens every source mapping
with an empty path and concatenates the results in source order. -/
def collectAllKVPairs (kvMaps : List (List (String × YamlValue))) : List KVPair :=
  kvMaps.flatMap fun m => flattenKVPairs m ""

/-- All flattened entries of all sources, tagged with the filename of the
source they came from, in source-processing order: the insertion sequence
of the `keyTracker` map built by `detectDuplicates`. -/
def taggedEntries (kvMaps : List (List (String × YamlValue))) (filenames : List String) :
    List (String × FileSource) :=
  (kvMaps.zip filenames).flatMap fun p =>
    (flattenKVPairs p.1 "").map fun q => (q.key, FileSource.mk p.2 q.value)

/-- The tracker entry for one key: every tagged occurrence of the key, in
source-processing order (`keyTracker` appends in exactly this order). -/
def occurrencesOf (tagged : List (String × FileSource)) (k : String) : List FileSource :=
  (tagged.filter fun e => e.1 == k).map fun e => e.2

/-- Source function `detectDuplicates`.  Fails (returns `none`, the Go
error) when the number of mappings and the number of filenames differ.
Otherwise it reports every key tracked with two or more occurrences,
sorted by key.  Go iterates the tracker map in unspecified order and then
sorts by key; since the tracker holds one entry per distinct key, the
sorted output is canonical, so the model takes the distinct keys via
`dedup` and sorts them. -/
def detectDuplicates (kvMaps : List (List (String × YamlValue))) (filenames : List String) :
    Option (List DuplicateInfo) :=
  if kvMaps.length ≠ filenames.length then none
  else
    let tagged := taggedEntries kvMaps filenames
    let distinctKeys := (tagged.map fun e => e.1).dedup
    let dupKeys := distinctKeys.filter fun k => 2 ≤ (occurrencesOf tagged k).length
    let sortedKeys := dupKeys.insertionSort (· ≤ ·)
    some (sortedKeys.map fun k => DuplicateInfo.mk k (occurrencesOf tagged k))

/-- The UTF-8 encoding of one character, as the byte sequence Go stores in
a string. -/
def utf8Bytes (c : Char) : List Nat :=
  let n := c.toNat
  if n < 128 then [n]
  else if n < 2048 then [192 + n / 64, 128 + n % 64]
  else if n < 65536 then [224 + n / 4096, 128 + (n / 64) % 64, 128 + n % 64]
  else [240 + n / 262144, 128 + (n / 4096) % 64, 128 + (n / 64) % 64, 128 + n % 64]

/-- The UTF-8 bytes of a string (a Go string is exactly this byte slice). -/
def strBytes (s : String) : List Nat :=
  s.data.flatMap utf8Bytes

/-- The standard base64 alphabet used by Go's `base64.StdEncoding`. -/
def b64Alphabet : List Char :=
  "ABCDEFGHIJKLMNOPQRSTUVWXYZabcdefghijklmnopqrstuvwxyz0123456789+/".data

/-- The base64 digit for a 6-bit group. -/
def b64Char (n : Nat) : Char :=
  b64Alphabet.getD n 'A'

/-- Standard base64 encoding of a byte sequence, with padding. -/
def b64Encode : List Nat → List Char
  | b0 :: b1 :: b2 :: rest =>
      b64Char (b0 / 4) :: b64Char (b0 % 4 * 16 + b1 / 16) ::
        b64Char (b1 % 16 * 4 + b2 / 64) :: b64Char (b2 % 64) :: b64Encode rest
  | [b0, b1] => [b64Char (b0 / 4), b64Char (b0 % 4 * 16 + b1 / 16), b64Char (b1 % 16 * 4), '=']
  | [b0] => [b64Char (b0 / 4), b64Char (b0 % 4 * 16), '=', '=']
  | [] => []

/-- Source function `encodeValue`: base64 of the string's bytes. -/
def encodeValue (value : String) : String :=
  ⟨b64Encode (strBytes value)⟩

/-- Source constant `MaxOpsPerTransaction`. -/
def MaxOpsPerTransaction : Nat := 64

/-- Source function `createTransactionOps`: one `set` operation per pair,
with the value base64-encoded. -/
def createTransactionOps (pairs : List KVPair) : List TxnOp :=
  pairs.map fun pair => TxnOp.mk (some (TxnKVOp.mk "set" pair.key (encodeValue pair.value) 0))

/-- Source function `chunkOps`, as its terminating denotation: repeatedly
slice off the first `chunkSize` operations.  The Go loop advances its
index by `chunkSize`, so it terminates exactly when `chunkSize` is
positive or the input is empty; this recursion is proved equal to the
fueled loop `chunkOpsLoop` under that precondition. -/
def chunkOps (ops : List TxnOp) (chunkSize : Nat) : List (List TxnOp) :=
  if h : ops = [] ∨ chunkSize = 0 then []
  else ops.take chunkSize :: chunkOps (ops.drop chunkSize) chunkSize
termination_by ops.length
decreasing_by
  simp only [List.length_drop]
  rcases Nat.eq_zero_or_pos chunkSize with hc | hc
  · exact absurd (Or.inr hc) h
  · have hl : ops.length ≠ 0 := fun hn => h (Or.inl (List.eq_nil_of_length_eq_zero hn))
    omega

/-- The Go `for` loop inside `chunkOps`, step-indexed: `i` is the loop
index, `chunks` the accumulator, and `fuel` bounds the number of
iterations; `none` means the fuel ran out before the loop exited (the
loop body literally appends the slice from `i` to `i + chunkSize`,
clamped to the length). -/
def chunkOpsLoop (ops : List TxnOp) (chunkSize : Nat) :
    Nat → Nat → List (List TxnOp) → Option (List (List TxnOp))
  | 0, _, _ => none
  | fuel + 1, i, chunks =>
    if i < ops.length then
      chunkOpsLoop ops chunkSize fuel (i + chunkSize) (chunks ++ [(ops.drop i).take chunkSize])
    else
      some chunks

/-- The transport-level result of one call to `executeTransaction`, as the
environment answers it: the HTTP request itself fails (or the response
body cannot be read), or a response with a status code arrives whose body
either parses to a `TxnResponse` or does not (`none`). -/
inductive TransportResult where
  | netFailure
  | response (status : Nat) (body : Option TxnResponse)
deriving DecidableEq

/-- Whether a transport result is a transport-level failure in the spec's
sense: the store could not be reached or its response could not be
parsed. -/
def isTransportFailure : TransportResult → Bool
  | .netFailure => true
  | .response _ none => true
  | .response _ (some _) => false

/-- Source method `executeTransaction`, given the environment's answer:
returns the Go pair of response pointer and error presence.  A request
failure or read failure returns a nil response and an error; the body is
parsed regardless of status; an unparsable body returns a nil response
and an error; status 200 returns the response without error; status 409
returns the response together with a rollback error; any other status
returns a nil response and an error. -/
def executeTransaction (r : TransportResult) : Option TxnResponse × Bool :=
  match r with
  | .netFailure => (none, true)
  | .response _ none => (none, true)
  | .response 200 (some resp) => (some resp, false)
  | .response 409 (some resp) => (some resp, true)
  | .response _ (some _) => (none, true)

/-- The `BatchResult` record the sync loop body builds for batch `i` with
operations `chunk`, under transport behaviour `t`: on error the batch is
marked unsuccessful and carries the response's per-operation errors when
a response exists (status 409), none otherwise; on success it is marked
successful. -/
def batchOutcome (t : Nat → TransportResult) (i : Nat) (chunk : List TxnOp) : BatchResult :=
  match executeTransaction (t i) with
  | (resp, true) => BatchResult.mk i false true ((resp.map TxnResponse.errors).getD []) chunk.length
  | (_, false) => BatchResult.mk i true false [] chunk.length

/-- One iteration of the sync loop of `syncKVPairs`: append the batch's
outcome record and bump the matching counter. -/
def syncStep (t : Nat → TransportResult) (s : ExecutionSummary) (ic : Nat × List TxnOp) :
    ExecutionSummary :=
  let r := batchOutcome t ic.1 ic.2
  { s with
    successBatches := s.successBatches + (if r.success then 1 else 0)
    failedBatches := s.failedBatches + (if r.success then 0 else 1)
    results := s.results ++ [r] }

/-- The summary `syncKVPairs` initializes before its loop. -/
def initialSummary (pairs : List KVPair) (chunks : List (List TxnOp)) : ExecutionSummary :=
  ExecutionSummary.mk pairs.length chunks.length 0 0 []

/-- The summary built by the loop of `syncKVPairs`: plan the batches and
fold the loop body over them with their indices. -/
def syncSummary (t : Nat → TransportResult) (pairs : List KVPair) : ExecutionSummary :=
  let ops := createTransactionOps pairs
  let chunks := chunkOps ops MaxOpsPerTransaction
  (chunks.enum).foldl (syncStep t) (initialSummary pairs chunks)

/-- Source method `syncKVPairs` under transport behaviour `t`: its single
return statement yields the built summary and a nil error, modelled as
the pair of an optional summary (the Go pointer) and an error-presence
flag. -/
def syncKVPairs (t : Nat → TransportResult) (pairs : List KVPair) :
    Option ExecutionSummary × Bool :=
  (some (syncSummary t pairs), false)

/-- Source function `syncToConsul`, reduced to its observable decisions:
whether the summary is displayed (it is whenever the returned pointer is
non-nil) and whether a run-level error is returned (a wrap error when the
sync failed with no summary, else a batches-failed error exactly when
`FailedBatches` is positive). -/
def syncToConsul (t : Nat → TransportResult) (allPairs : List KVPair) : Bool × Bool :=
  let r := syncKVPairs t allPairs
  let displayed := r.1.isSome
  if r.2 && r.1.isNone then (displayed, true)
  else
    match r.1 with
    | some s => (displayed, decide (0 < s.failedBatches))
    | none => (displayed, false)

/-- The result of the source function `checkDuplicates`: the wrapped
detector error, a duplicate-keys error when any duplicates were found, or
success. -/
inductive CheckResult where
  | arityError
  | duplicatesFound (dups : List DuplicateInfo)
  | ok
deriving DecidableEq

/-- Source function `checkDuplicates`: runs the detector, propagates its
error, and fails when the duplicate list is non-empty. -/
def checkDuplicates (kvMaps : List (List (String × YamlValue))) (filenames : List String) :
    CheckResult :=
  match detectDuplicates kvMaps filenames with
  | none => .arityError
  | some dups => if 0 < dups.length then .duplicatesFound dups else .ok

/-- The observable outcome of one run of the source function `run` on the
sync path (export and dry-run disabled). -/
inductive RunOutcome where
  | arityMismatchError
  | duplicateKeysError (dups : List DuplicateInfo)
  | syncRun (summary : Option ExecutionSummary) (failed : Bool)

/-- Source function `run` on the sync path: check duplicates (returning
before any store interaction on failure), collect all pairs, and sync
them to the store under transport behaviour `t`. -/
def runModel (t : Nat → TransportResult) (kvMaps : List (List (String × YamlValue)))
    (filenames : List String) : RunOutcome :=
  match checkDuplicates kvMaps filenames with
  | .arityError => .arityMismatchError
  | .duplicatesFound dups => .duplicateKeysError dups
  | .ok =>
    let allPairs := collectAllKVPairs kvMaps
    .syncRun (syncKVPairs t allPairs).1 (syncToConsul t allPairs).2

/-- The batches the planner produces for a pair list: shorthand for what
`syncKVPairs` computes before its loop. -/
def plannedChunks (pairs : List KVPair) : List (List TxnOp) :=
  chunkOps (createTransactionOps pairs) MaxOpsPerTransaction

/-- A concrete input of 65 pairs, which the planner splits into two
batches (64 and 1): used to exercise the executor across a batch
boundary. -/
def sixtyFivePairs : List KVPair :=
  (List.range 65).map fun n => KVPair.mk (toString n) "v"

example : encodeValue "hogehoge" = "aG9nZWhvZ2U=" := by decide
example : encodeValue "" = "" := by decide
example : encodeValue "key=value&foo=bar" = "a2V5PXZhbHVlJmZvbz1iYXI=" := by decide
example : flattenKVPairs [("hoge", .map [("fuga", .map [("moge", .str "hogehoge")])])] "" =
    [⟨"hoge/fuga/moge", "hogehoge"⟩] := by decide
example : flattenKVPairs [("null_key", .null)] "" = [⟨"null_key", "<nil>"⟩] := by decide
example : flattenKVPairs [("empty", .map [])] "" = [] := by decide

theorem chunkOps_nil (c : Nat) : chunkOps [] c = [] := by
  rw [chunkOps]
  simp

theorem chunkOps_zero (ops : List TxnOp) : chunkOps ops 0 = [] := by
  rw [chunkOps]
  simp

theorem chunkOps_cons (ops : List TxnOp) (c : Nat) (hne : ops ≠ []) (hc : c ≠ 0) :
    chunkOps ops c = ops.take c :: chunkOps (ops.drop c) c := by
  rw [chunkOps]
  simp [hne, hc]

theorem chunkOps_map_length (c : Nat) (hc : 0 < c) (ops : List TxnOp) :
    (chunkOps ops c).map List.length =
      List.replicate (ops.length / c) c ++
        (if ops.length % c = 0 then [] else [ops.length % c]) := by
  by_cases hne : ops = []
  · subst hne
    simp [chunkOps_nil, Nat.zero_div, Nat.zero_mod]
  · rw [chunkOps_cons ops c hne (Nat.pos_iff_ne_zero.mp hc)]
    have hlen : 0 < ops.length := List.length_pos.mpr hne
    by_cases hle : ops.length ≤ c
    · have htake : ops.take c = ops := List.take_of_length_le hle
      have hdrop : ops.drop c = [] := List.drop_eq_nil_of_le hle
      rw [htake, hdrop, chunkOps_nil]
      rcases Nat.lt_or_ge ops.length c with hlt | hge
      · have h1 : ops.length / c = 0 := Nat.div_eq_of_lt hlt
        have h2 : ops.length % c = ops.length := Nat.mod_eq_of_lt hlt
        simp [h1, h2, Nat.pos_iff_ne_zero.mp hlen]
      · have heq : ops.length = c := le_antisymm hle hge
        simp [heq, Nat.div_self hc, Nat.mod_self]
    · push_neg at hle
      have ih := chunkOps_map_length c hc (ops.drop c)
      have hdl : (ops.drop c).length = ops.length - c := List.length_drop c ops
      have hsplit : ops.length = c + (ops.length - c) := by omega
      have hdiv : ops.length / c = (ops.length - c) / c + 1 := by
        conv_lhs => rw [hsplit]
        rw [Nat.add_div_left _ hc]
      have hmod : ops.length % c = (ops.length - c) % c := by
        conv_lhs => rw [hsplit]
        rw [Nat.add_mod_left]
      have htl : (ops.take c).length = c := by
        rw [List.length_take]
        omega
      simp only [List.map_cons, ih, hdl, htl, hdiv, hmod, List.replicate_succ,
        List.cons_append]
termination_by ops.length
decreasing_by
  simp only [List.length_drop]
  omega

theorem chunkOps_flatten (c : Nat) (hc : 0 < c) (ops : List TxnOp) :
    (chunkOps ops c).flatten = ops := by
  by_cases hne : ops = []
  · subst hne
    simp [chunkOps_nil]
  · rw [chunkOps_cons ops c hne (Nat.pos_iff_ne_zero.mp hc)]
    have hlen : 0 < ops.length := List.length_pos.mpr hne
    have ih := chunkOps_flatten c hc (ops.drop c)
    simp [ih, List.take_append_drop]
termination_by ops.length
decreasing_by
  simp only [List.length_drop]
  have : c ≠ 0 := Nat.pos_iff_ne_zero.mp hc
  omega

theorem chunkOps_length_64 (ops : List TxnOp) :
    (chunkOps ops 64).length = (ops.length + 63) / 64 := by
  have h := congrArg List.length (chunkOps_map_length 64 (by norm_num) ops)
  simp only [List.length_map, List.length_append, List.length_replicate] at h
  rw [h]
  by_cases hm : ops.length % 64 = 0
  · rw [if_pos hm]
    simp only [List.length_nil]
    omega
  · rw [if_neg hm]
    simp only [List.length_cons, List.length_nil]
    omega

/-- C2: for every operation sequence and capacity 64, `chunkOps` produces
batches whose sizes are 64 repeated floor(N/64) times followed by N mod 64
when that is non-zero (hence exactly ceil(N/64) batches, all of size 64
except possibly a shorter last one, and zero batches for N = 0),
concatenating the batches reconstructs the input exactly, and no batch
exceeds 64 operations. -/
theorem chunkOps_batch_plan (ops : List TxnOp) :
    (chunkOps ops MaxOpsPerTransaction).map List.length =
        List.replicate (ops.length / 64) 64 ++
          (if ops.length % 64 = 0 then [] else [ops.length % 64])
    ∧ (chunkOps ops MaxOpsPerTransaction).length = (ops.length + 63) / 64
    ∧ (chunkOps ops MaxOpsPerTransaction).flatten = ops
    ∧ ((chunkOps ops MaxOpsPerTransaction).map List.length).all (fun n => decide (n ≤ 64)) = true
    ∧ chunkOps ([] : List TxnOp) MaxOpsPerTransaction = [] := by
  have h64 : MaxOpsPerTransaction = 64 := rfl
  rw [h64]
  refine ⟨chunkOps_map_length 64 (by norm_num) ops, chunkOps_length_64 ops,
    chunkOps_flatten 64 (by norm_num) ops, ?_, chunkOps_nil 64⟩
  rw [chunkOps_map_length 64 (by norm_num) ops]
  rw [List.all_eq_true]
  intro n hn
  rcases List.mem_append.mp hn with hn | hn
  · have := List.eq_of_mem_replicate hn
    simp [this]
  · by_cases hm : ops.length % 64 = 0
    · rw [if_pos hm] at hn
      cases hn
    · rw [if_neg hm] at hn
      have hlt : ops.length % 64 < 64 := Nat.mod_lt _ (by norm_num)
      rcases List.mem_singleton.mp hn with rfl
      simp
      omega


theorem chunkOpsLoop_reaches (c : Nat) (hc : 0 < c) :
    ∀ (fuel : Nat) (ops : List TxnOp) (i : Nat) (acc : List (List TxnOp)),
      ops.length - i < fuel →
      chunkOpsLoop ops c fuel i acc = some (acc ++ chunkOps (ops.drop i) c) := by
  intro fuel
  induction fuel with
  | zero => intro ops i acc hfuel; omega
  | succ fuel ih =>
    intro ops i acc hfuel
    by_cases hi : i < ops.length
    · rw [chunkOpsLoop, if_pos hi]
      rw [ih ops (i + c) (acc ++ [(ops.drop i).take c]) (by omega)]
      have hdd : (ops.drop i).drop c = ops.drop (i + c) := by
        rw [List.drop_drop]
      have hne : ops.drop i ≠ [] := by
        intro hnil
        have := congrArg List.length hnil
        simp only [List.length_drop, List.length_nil] at this
        omega
      rw [chunkOps_cons (ops.drop i) c hne (Nat.pos_iff_ne_zero.mp hc), ← hdd]
      simp [List.append_assoc]
    · rw [chunkOpsLoop, if_neg hi]
      have hdrop : ops.drop i = [] := List.drop_eq_nil_of_le (by omega)
      rw [hdrop, chunkOps_nil]
      simp

theorem chunkOpsLoop_zero_diverges (ops : List TxnOp) :
    ∀ (fuel i : Nat) (acc : List (List TxnOp)), i < ops.length →
      chunkOpsLoop ops 0 fuel i acc = none := by
  intro fuel
  induction fuel with
  | zero => intro i acc hi; rfl
  | succ fuel ih =>
    intro i acc hi
    rw [chunkOpsLoop, if_pos hi]
    simpa using ih i (acc ++ [(ops.drop i).take 0]) hi

/-- C10: with a strictly positive chunk size the Go loop inside `chunkOps`
exits after at most length-plus-one iterations, returning the planned
chunks; with chunk size zero and a non-empty input it never exits, so
positivity is necessary; and the program's only call site passes the
positive constant `MaxOpsPerTransaction` = 64. -/
theorem chunkOps_terminates (ops : List TxnOp) (c : Nat) (o : TxnOp) (tl : List TxnOp)
    (hc : 0 < c) :
    chunkOpsLoop ops c (ops.length + 1) 0 [] = some (chunkOps ops c)
    ∧ (∀ fuel, chunkOpsLoop (o :: tl) 0 fuel 0 [] = none)
    ∧ 0 < MaxOpsPerTransaction := by
  refine ⟨?_, ?_, by norm_num [MaxOpsPerTransaction]⟩
  · have := chunkOpsLoop_reaches c hc (ops.length + 1) ops 0 [] (by omega)
    simpa using this
  · intro fuel
    exact chunkOpsLoop_zero_diverges (o :: tl) fuel 0 [] (by simp)

/-- Witness for `chunkOps_terminates` at a concrete three-operation list
with chunk size two, and divergence of the zero-chunk-size loop on a
concrete non-empty list. -/
theorem chunkOps_terminates_witness :
    chunkOpsLoop [TxnOp.mk none, TxnOp.mk none, TxnOp.mk none] 2 4 0 [] =
        some (chunkOps [TxnOp.mk none, TxnOp.mk none, TxnOp.mk none] 2)
    ∧ chunkOpsLoop [TxnOp.mk none] 0 5 0 [] = none
    ∧ 0 < MaxOpsPerTransaction := by
  have h := chunkOps_terminates [TxnOp.mk none, TxnOp.mk none, TxnOp.mk none] 2
    (TxnOp.mk none) [] (by norm_num)
  exact ⟨h.1, h.2.1 5, h.2.2⟩

theorem batchOutcome_batchIndex (t : Nat → TransportResult) (i : Nat) (c : List TxnOp) :
    (batchOutcome t i c).batchIndex = i := by
  cases h : executeTransaction (t i) with
  | mk r b => cases b <;> simp [batchOutcome, h]

theorem batchOutcome_processedOps (t : Nat → TransportResult) (i : Nat) (c : List TxnOp) :
    (batchOutcome t i c).processedOps = c.length := by
  cases h : executeTransaction (t i) with
  | mk r b => cases b <;> simp [batchOutcome, h]

theorem batchOutcome_success_iff (t : Nat → TransportResult) (i : Nat) (c : List TxnOp) :
    (batchOutcome t i c).success = !(executeTransaction (t i)).2 := by
  cases h : executeTransaction (t i) with
  | mk r b => cases b <;> simp [batchOutcome, h]

theorem batchOutcome_transport_failure (t : Nat → TransportResult) (i : Nat) (c : List TxnOp)
    (h : isTransportFailure (t i) = true) :
    (batchOutcome t i c).success = false ∧ (batchOutcome t i c).hasError = true
      ∧ (batchOutcome t i c).opErrors = [] := by
  cases ht : t i with
  | netFailure => simp [batchOutcome, executeTransaction, ht]
  | response status body =>
    cases body with
    | none => simp [batchOutcome, executeTransaction, ht]
    | some resp => rw [ht] at h; simp [isTransportFailure] at h

theorem enumFrom_map_fst {α : Type} (k : Nat) (l : List α) :
    (List.enumFrom k l).map Prod.fst = List.range' k l.length := by
  induction l generalizing k with
  | nil => rfl
  | cons c cs ih => simp [List.range'_succ, ih]

theorem length_filter_add_length_filter_not {α : Type} (p : α → Bool) (l : List α) :
    (l.filter p).length + (l.filter fun a => !p a).length = l.length := by
  induction l with
  | nil => rfl
  | cons a l ih =>
    by_cases h : p a <;> simp [List.filter_cons, h, ← ih] <;> omega

theorem length_filter_map {α β : Type} (f : α → β) (p : β → Bool) (l : List α) :
    ((l.map f).filter p).length = (l.filter fun a => p (f a)).length := by
  induction l with
  | nil => rfl
  | cons a l ih => by_cases h : p (f a) <;> simp [List.filter_cons, h, ih]

theorem syncKVPairs_fold (t : Nat → TransportResult) :
    ∀ (chunks : List (List TxnOp)) (k : Nat) (s : ExecutionSummary),
    (chunks.enumFrom k).foldl (syncStep t) s =
      { s with
        successBatches := s.successBatches +
          ((chunks.enumFrom k).filter fun ic => (batchOutcome t ic.1 ic.2).success).length
        failedBatches := s.failedBatches +
          ((chunks.enumFrom k).filter fun ic => !(batchOutcome t ic.1 ic.2).success).length
        results := s.results ++ (chunks.enumFrom k).map fun ic => batchOutcome t ic.1 ic.2 } := by
  intro chunks
  induction chunks with
  | nil => intro k s; simp [List.enumFrom]
  | cons c cs ih =>
    intro k s
    have hstep : List.enumFrom k (c :: cs) = (k, c) :: List.enumFrom (k + 1) cs := rfl
    rw [hstep]
    simp only [List.foldl_cons]
    rw [ih (k + 1) (syncStep t s (k, c))]
    cases h : (batchOutcome t k c).success <;>
      simp [syncStep, h, List.filter_cons] <;>
      omega

theorem syncSummary_eq (t : Nat → TransportResult) (pairs : List KVPair) :
    syncSummary t pairs =
      { totalKeys := pairs.length
        totalBatches := (plannedChunks pairs).length
        successBatches := (((plannedChunks pairs).enum).filter
          fun ic => (batchOutcome t ic.1 ic.2).success).length
        failedBatches := (((plannedChunks pairs).enum).filter
          fun ic => !(batchOutcome t ic.1 ic.2).success).length
        results := ((plannedChunks pairs).enum).map fun ic => batchOutcome t ic.1 ic.2 } := by
  show ((plannedChunks pairs).enum).foldl (syncStep t)
      (initialSummary pairs (plannedChunks pairs)) = _
  rw [show ((plannedChunks pairs).enum) = List.enumFrom 0 (plannedChunks pairs) from rfl]
  rw [syncKVPairs_fold t (plannedChunks pairs) 0 (initialSummary pairs (plannedChunks pairs))]
  simp [initialSummary]

/-- C3: after the executor returns, `successBatches` plus `failedBatches`
equals `totalBatches` (each submitted batch counted in exactly one of the
two, as witnessed by the filters on the outcome records), `totalBatches`
equals the number of planned batches, and the outcome sequence carries
exactly one record per submitted batch, in submission order (its batch
indices are exactly 0, 1, 2, and so on). -/
theorem sync_summary_accounting (t : Nat → TransportResult) (pairs : List KVPair) :
    (syncSummary t pairs).successBatches + (syncSummary t pairs).failedBatches =
        (syncSummary t pairs).totalBatches
    ∧ (syncSummary t pairs).totalBatches = (plannedChunks pairs).length
    ∧ (syncSummary t pairs).results.map BatchResult.batchIndex =
        List.range (syncSummary t pairs).totalBatches
    ∧ (syncSummary t pairs).results.length = (syncSummary t pairs).totalBatches
    ∧ (syncSummary t pairs).successBatches =
        ((syncSummary t pairs).results.filter fun r => r.success).length
    ∧ (syncSummary t pairs).failedBatches =
        ((syncSummary t pairs).results.filter fun r => !r.success).length := by
  rw [syncSummary_eq t pairs]
  refine ⟨?_, rfl, ?_, ?_, ?_, ?_⟩
  · have h := length_filter_add_length_filter_not
      (fun ic => (batchOutcome t ic.1 ic.2).success) ((plannedChunks pairs).enum)
    simpa using h
  · rw [List.map_map]
    have hcong : ((plannedChunks pairs).enum).map
        (BatchResult.batchIndex ∘ fun ic => batchOutcome t ic.1 ic.2) =
        ((plannedChunks pairs).enum).map Prod.fst := by
      apply List.map_congr_left
      intro ic _
      exact batchOutcome_batchIndex t ic.1 ic.2
    rw [hcong]
    rw [show ((plannedChunks pairs).enum) = List.enumFrom 0 (plannedChunks pairs) from rfl]
    rw [enumFrom_map_fst, List.range_eq_range']
  · simp
  · rw [length_filter_map]
  · rw [length_filter_map]

/-- C1 (amended): a transport-level failure on a batch does not abort the
run: `syncKVPairs` always returns a nil error together with the full
summary, and the batch whose submission failed at the transport level is
recorded in the summary as an unsuccessful outcome carrying the error and
no per-operation errors, while every other batch still receives its own
outcome record. -/
theorem transport_failure_recorded (t : Nat → TransportResult) (pairs : List KVPair) (i : Nat)
    (hi : i < (plannedChunks pairs).length)
    (hf : isTransportFailure (t i) = true) :
    (syncKVPairs t pairs).2 = false
    ∧ ∃ r ∈ (syncSummary t pairs).results,
        r.batchIndex = i ∧ r.success = false ∧ r.hasError = true ∧ r.opErrors = [] := by
  refine ⟨rfl, ?_⟩
  rw [syncSummary_eq]
  have hft := batchOutcome_transport_failure t i ((plannedChunks pairs)[i]) hf
  refine ⟨batchOutcome t i ((plannedChunks pairs)[i]), ?_,
    batchOutcome_batchIndex t i _, hft.1, hft.2.1, hft.2.2⟩
  have hlen : i < ((plannedChunks pairs).enum).length := by
    simpa [List.enum_length] using hi
  have hmem : ((plannedChunks pairs).enum)[i] ∈ (plannedChunks pairs).enum :=
    List.getElem_mem hlen
  rw [List.getElem_enum] at hmem
  exact List.mem_map_of_mem (fun ic => batchOutcome t ic.1 ic.2) hmem

theorem plannedChunks_sixtyFive_length : (plannedChunks sixtyFivePairs).length = 2 := by
  rw [plannedChunks, show MaxOpsPerTransaction = 64 from rfl, chunkOps_length_64]
  simp [createTransactionOps, sixtyFivePairs]

/-- Witness for `transport_failure_recorded`: 65 pairs plan into two
batches, the transport fails on every request, and batch 1 (the second
batch) is recorded as failed. -/
theorem transport_failure_recorded_witness :
    (syncKVPairs (fun _ => TransportResult.netFailure) sixtyFivePairs).2 = false
    ∧ ∃ r ∈ (syncSummary (fun _ => TransportResult.netFailure) sixtyFivePairs).results,
        r.batchIndex = 1 ∧ r.success = false ∧ r.hasError = true ∧ r.opErrors = [] :=
  transport_failure_recorded (fun _ => TransportResult.netFailure) sixtyFivePairs 1
    (by rw [plannedChunks_sixtyFive_length]; norm_num) rfl

/-- C1 as stated is false on the code: with the transport failing on
every request and 65 pairs (hence two planned batches), the executor
still submits the second batch after the first one's transport failure,
records both outcomes, and returns the complete summary with a nil
error, rather than propagating a fatal transport error immediately. -/
theorem transport_failure_not_fatal_counterexample :
    isTransportFailure ((fun _ => TransportResult.netFailure) 0) = true
    ∧ (syncKVPairs (fun _ => TransportResult.netFailure) sixtyFivePairs).2 = false
    ∧ (syncSummary (fun _ => TransportResult.netFailure) sixtyFivePairs).totalBatches = 2
    ∧ (syncSummary (fun _ => TransportResult.netFailure) sixtyFivePairs).results.length = 2
    ∧ (syncSummary (fun _ => TransportResult.netFailure) sixtyFivePairs).failedBatches = 2 := by
  refine ⟨rfl, rfl, ?_, ?_, ?_⟩
  · rw [syncSummary_eq]
    exact plannedChunks_sixtyFive_length
  · rw [syncSummary_eq]
    simp [List.enum_length, plannedChunks_sixtyFive_length]
  · rw [syncSummary_eq]
    show (((plannedChunks sixtyFivePairs).enum).filter _).length = 2
    rw [List.filter_eq_self.mpr]
    · simp [List.enum_length, plannedChunks_sixtyFive_length]
    · intro ic _
      simp [batchOutcome_success_iff, executeTransaction]

/-- C5: the run is reported failed exactly when the summary records at
least one failed batch, and the summary is always displayed (in
particular whenever at least one batch was attempted). -/
theorem run_failed_iff_failedBatches (t : Nat → TransportResult) (pairs : List KVPair) :
    ((syncToConsul t pairs).2 = true ↔ 0 < (syncSummary t pairs).failedBatches)
    ∧ (syncToConsul t pairs).1 = true := by
  constructor
  · simp [syncToConsul, syncKVPairs]
  · simp [syncToConsul, syncKVPairs]

mutual

theorem processValue_length (k : String) (v : YamlValue) :
    (processValue k v).length = leafCount v := by
  cases v with
  | str s => rfl
  | int n => rfl
  | bool b => rfl
  | null => rfl
  | map m =>
    show (flattenKVPairs m k).length = leafCountEntries m
    exact flattenKVPairs_length m k
  | imap m =>
    show (processInterfaceMap k m).length = leafCountIEntries m
    exact processInterfaceMap_length k m

theorem flattenKVPairs_length (data : List (String × YamlValue)) (pre : String) :
    (flattenKVPairs data pre).length = leafCountEntries data := by
  cases data with
  | nil => rfl
  | cons a rest =>
    rcases a with ⟨key, v⟩
    show (processValue (buildKey pre key) v ++ flattenKVPairs rest pre).length =
      leafCount v + leafCountEntries rest
    rw [List.length_append, processValue_length (buildKey pre key) v,
      flattenKVPairs_length rest pre]

theorem processInterfaceMap_length (k : String) (m : List (IKey × YamlValue)) :
    (processInterfaceMap k m).length = leafCountIEntries m := by
  cases m with
  | nil => rfl
  | cons a rest =>
    rcases a with ⟨ik, v⟩
    cases ik with
    | istr s =>
      show (processValue (buildKey k s) v ++ processInterfaceMap k rest).length =
        leafCount v + leafCountIEntries rest
      rw [List.length_append, processValue_length (buildKey k s) v,
        processInterfaceMap_length k rest]
    | iother =>
      show (processInterfaceMap k rest).length = leafCountIEntries rest
      exact processInterfaceMap_length k rest

end

theorem processInterfaceMap_eq_stringEntries (k : String) (m : List (IKey × YamlValue)) :
    processInterfaceMap k m = flattenKVPairs (stringEntries m) k := by
  induction m with
  | nil => rfl
  | cons a rest ih =>
    rcases a with ⟨ik, v⟩
    cases ik with
    | istr s => simp [processInterfaceMap, stringEntries, List.filterMap_cons, flattenKVPairs, ih]
    | iother => simpa [processInterfaceMap, stringEntries, List.filterMap_cons] using ih

/-- C6: the flattener never emits a nested collection as a leaf: both
kinds of nested mapping are recursed into (producing entries only for the
scalar leaves below them, as the leaf-count equation states), and only
scalar values are rendered to text and emitted as single entries. -/
theorem collections_recursed_never_leaves (k : String) (v : YamlValue)
    (data : List (String × YamlValue)) (m : List (IKey × YamlValue)) :
    processValue k (.map data) = flattenKVPairs data k
    ∧ processValue k (.imap m) = flattenKVPairs (stringEntries m) k
    ∧ (∀ s, renderScalar v = some s → processValue k v = [KVPair.mk k s])
    ∧ (processValue k v).length = leafCount v := by
  refine ⟨rfl, processInterfaceMap_eq_stringEntries k m, ?_, processValue_length k v⟩
  intro s hs
  cases v <;> simp [renderScalar] at hs <;> simp [processValue, hs]

/-- Witness for `collections_recursed_never_leaves` at concrete inputs:
a one-entry nested mapping is recursed into, a dynamically-keyed mapping
is flattened over its string-keyed entries, and a string scalar is
emitted as a single rendered entry. -/
theorem collections_recursed_never_leaves_witness :
    processValue "a" (.map [("b", .str "y")]) = flattenKVPairs [("b", .str "y")] "a"
    ∧ processValue "a" (.imap [(.istr "c", .null), (.iother, .str "z")]) =
        flattenKVPairs (stringEntries [(.istr "c", .null), (.iother, .str "z")]) "a"
    ∧ processValue "a" (.str "x") = [KVPair.mk "a" "x"]
    ∧ (processValue "a" (.str "x")).length = leafCount (.str "x") := by
  have h := collections_recursed_never_leaves "a" (.str "x") [("b", .str "y")]
    [(.istr "c", .null), (.iother, .str "z")]
  exact ⟨h.1, h.2.1, h.2.2.1 "x" rfl, h.2.2.2⟩

/-- C7: a key that is present with a null value is not omitted: the
flattener renders it with the fixed sentinel text and emits an entry for
it, so it still takes part in duplicate detection and sync. -/
theorem null_value_emits_sentinel (data : List (String × YamlValue)) (pre k : String)
    (h : (k, YamlValue.null) ∈ data) :
    processValue k YamlValue.null = [KVPair.mk k "<nil>"]
    ∧ KVPair.mk (buildKey pre k) "<nil>" ∈ flattenKVPairs data pre := by
  refine ⟨rfl, ?_⟩
  induction data with
  | nil => cases h
  | cons a rest ih =>
    rcases List.mem_cons.mp h with heq | hmem
    · subst heq
      show _ ∈ processValue (buildKey pre k) YamlValue.null ++ flattenKVPairs rest pre
      exact List.mem_append.mpr (Or.inl (List.mem_singleton.mpr rfl))
    · rcases a with ⟨key, v⟩
      show _ ∈ processValue (buildKey pre key) v ++ flattenKVPairs rest pre
      exact List.mem_append.mpr (Or.inr (ih hmem))

/-- Witness for `null_value_emits_sentinel`: the mapping of the source's
own unit test, one key bound to null, emits exactly the sentinel entry. -/
theorem null_value_emits_sentinel_witness :
    processValue "null_key" YamlValue.null = [KVPair.mk "null_key" "<nil>"]
    ∧ KVPair.mk (buildKey "" "null_key") "<nil>" ∈
        flattenKVPairs [("null_key", YamlValue.null)] "" :=
  null_value_emits_sentinel [("null_key", YamlValue.null)] "" "null_key"
    (List.mem_singleton.mpr rfl)

theorem mem_keys_of_occ_pos (tagged : List (String × FileSource)) (k : String)
    (h : 0 < (occurrencesOf tagged k).length) : k ∈ tagged.map fun e => e.1 := by
  rw [occurrencesOf, List.length_map] at h
  rcases List.exists_mem_of_ne_nil _ (List.length_pos.mp h) with ⟨e, he⟩
  rcases List.mem_filter.mp he with ⟨hmem, hbeq⟩
  exact List.mem_map.mpr ⟨e, hmem, (by simpa using hbeq)⟩

theorem detect_characterization (kvMaps : List (List (String × YamlValue)))
    (fns : List String) (h : kvMaps.length = fns.length) :
    ∃ l, detectDuplicates kvMaps fns = some l
      ∧ List.Sorted (· ≤ ·) (l.map DuplicateInfo.key)
      ∧ (∀ k, k ∈ l.map DuplicateInfo.key ↔
          2 ≤ (occurrencesOf (taggedEntries kvMaps fns) k).length)
      ∧ ∀ d ∈ l, d.files = occurrencesOf (taggedEntries kvMaps fns) d.key := by
  refine ⟨(((((taggedEntries kvMaps fns).map fun e => e.1).dedup.filter
      fun k => 2 ≤ (occurrencesOf (taggedEntries kvMaps fns) k).length).insertionSort
      (· ≤ ·)).map fun k => DuplicateInfo.mk k (occurrencesOf (taggedEntries kvMaps fns) k)),
    ?_, ?_, ?_, ?_⟩
  · rw [detectDuplicates, if_neg (by simp [h])]
  · rw [List.map_map]
    have hid : (DuplicateInfo.key ∘ fun k =>
        DuplicateInfo.mk k (occurrencesOf (taggedEntries kvMaps fns) k)) = id := rfl
    rw [hid, List.map_id]
    exact List.sorted_insertionSort _ _
  · intro k
    rw [List.map_map]
    have hid : (DuplicateInfo.key ∘ fun k =>
        DuplicateInfo.mk k (occurrencesOf (taggedEntries kvMaps fns) k)) = id := rfl
    rw [hid, List.map_id, List.mem_insertionSort]
    constructor
    · intro hk
      exact of_decide_eq_true (List.mem_filter.mp hk).2
    · intro hk
      refine List.mem_filter.mpr ⟨?_, decide_eq_true hk⟩
      rw [List.mem_dedup]
      exact mem_keys_of_occ_pos _ k (by omega)
  · intro d hd
    rcases List.mem_map.mp hd with ⟨k, _, rfl⟩
    rfl

/-- C4 (amended): the detector reports exactly those flattened paths with
at least two tagged occurrences across the processed sources (a path can
reach two occurrences within a single source when two flattened paths
collide, so this is not the same as occurring in two distinct sources);
each record carries every contributing source and value in
source-processing order, and the records are sorted by path. -/
theorem detect_duplicates_characterization (kvMaps : List (List (String × YamlValue)))
    (fns : List String) (h : kvMaps.length = fns.length) :
    ∃ l, detectDuplicates kvMaps fns = some l
      ∧ List.Sorted (· ≤ ·) (l.map DuplicateInfo.key)
      ∧ (∀ k, k ∈ l.map DuplicateInfo.key ↔
          2 ≤ (occurrencesOf (taggedEntries kvMaps fns) k).length)
      ∧ ∀ d ∈ l, d.files = occurrencesOf (taggedEntries kvMaps fns) d.key :=
  detect_characterization kvMaps fns h

/-- Witness for `detect_duplicates_characterization` at the spec's
scenario A: two sources assigning different values to the same path. -/
theorem detect_duplicates_characterization_witness :
    ∃ l, detectDuplicates [[("a", YamlValue.str "1")], [("a", YamlValue.str "2")]]
          ["f1", "f2"] = some l
      ∧ List.Sorted (· ≤ ·) (l.map DuplicateInfo.key)
      ∧ (∀ k, k ∈ l.map DuplicateInfo.key ↔
          2 ≤ (occurrencesOf (taggedEntries
            [[("a", YamlValue.str "1")], [("a", YamlValue.str "2")]] ["f1", "f2"]) k).length)
      ∧ ∀ d ∈ l, d.files = occurrencesOf (taggedEntries
          [[("a", YamlValue.str "1")], [("a", YamlValue.str "2")]] ["f1", "f2"]) d.key :=
  detect_duplicates_characterization
    [[("a", YamlValue.str "1")], [("a", YamlValue.str "2")]] ["f1", "f2"] rfl

/-- C4 as stated is false on the code: with the single source f1 whose
mapping binds both the plain key a slash b and the nested key b below a,
the two flattened paths collide, and the detector reports that path even
though it occurs in only one source (and both occurrences carry f1). -/
theorem detect_single_source_counterexample :
    detectDuplicates [[("a/b", YamlValue.str "x"), ("a", YamlValue.map [("b", YamlValue.str "y")])]]
        ["f1"] =
      some [DuplicateInfo.mk "a/b" [FileSource.mk "f1" "x", FileSource.mk "f1" "y"]]
    ∧ [[("a/b", YamlValue.str "x"), ("a", YamlValue.map [("b", YamlValue.str "y")])]].length = 1 := by
  constructor
  · decide
  · rfl

/-- C9: for inputs whose source lists are permutations of each other (as
paired with their filenames), the detector reports the same set of
duplicate paths; only the order inside each record's occurrence list can
differ. -/
theorem detect_order_invariant (maps₁ maps₂ : List (List (String × YamlValue)))
    (fns₁ fns₂ : List String)
    (h₁ : maps₁.length = fns₁.length) (h₂ : maps₂.length = fns₂.length)
    (hp : (maps₁.zip fns₁).Perm (maps₂.zip fns₂)) :
    ∃ l₁ l₂, detectDuplicates maps₁ fns₁ = some l₁ ∧ detectDuplicates maps₂ fns₂ = some l₂
      ∧ ∀ k, (k ∈ l₁.map DuplicateInfo.key ↔ k ∈ l₂.map DuplicateInfo.key) := by
  obtain ⟨l₁, he₁, _, hm₁, _⟩ := detect_characterization maps₁ fns₁ h₁
  obtain ⟨l₂, he₂, _, hm₂, _⟩ := detect_characterization maps₂ fns₂ h₂
  refine ⟨l₁, l₂, he₁, he₂, fun k => ?_⟩
  rw [hm₁ k, hm₂ k]
  have hperm : (taggedEntries maps₁ fns₁).Perm (taggedEntries maps₂ fns₂) :=
    hp.flatMap_right _
  have hlen : (occurrencesOf (taggedEntries maps₁ fns₁) k).length =
      (occurrencesOf (taggedEntries maps₂ fns₂) k).length := by
    rw [occurrencesOf, occurrencesOf, List.length_map, List.length_map]
    exact (hperm.filter _).length_eq
  rw [hlen]

/-- Witness for `detect_order_invariant`: two concrete sources given in
the two possible orders. -/
theorem detect_order_invariant_witness :
    ∃ l₁ l₂,
      detectDuplicates [[("a", YamlValue.str "1")], [("a", YamlValue.str "2")]]
          ["f1", "f2"] = some l₁
      ∧ detectDuplicates [[("a", YamlValue.str "2")], [("a", YamlValue.str "1")]]
          ["f2", "f1"] = some l₂
      ∧ ∀ k, (k ∈ l₁.map DuplicateInfo.key ↔ k ∈ l₂.map DuplicateInfo.key) :=
  detect_order_invariant
    [[("a", YamlValue.str "1")], [("a", YamlValue.str "2")]]
    [[("a", YamlValue.str "2")], [("a", YamlValue.str "1")]]
    ["f1", "f2"] ["f2", "f1"] rfl rfl
    (List.Perm.swap ([("a", YamlValue.str "2")], "f2") ([("a", YamlValue.str "1")], "f1") [])

/-- C8: whenever the number of mappings differs from the number of source
identifiers, the detector fails (the Go error return becomes the
`ArityMismatch` of the spec), `checkDuplicates` propagates the failure,
and the run aborts with that error before any store interaction: the run
outcome is the same for every transport behaviour and carries no
execution summary. -/
theorem arity_mismatch_aborts (kvMaps : List (List (String × YamlValue)))
    (fns : List String) (h : kvMaps.length ≠ fns.length) :
    detectDuplicates kvMaps fns = none
    ∧ checkDuplicates kvMaps fns = CheckResult.arityError
    ∧ ∀ t, runModel t kvMaps fns = RunOutcome.arityMismatchError := by
  have hd : detectDuplicates kvMaps fns = none := by
    rw [detectDuplicates, if_pos h]
  refine ⟨hd, ?_, fun t => ?_⟩
  · rw [checkDuplicates, hd]
  · rw [runModel, checkDuplicates, hd]

/-- Witness for `arity_mismatch_aborts`: zero mappings against one
filename, with a concrete transport behaviour. -/
theorem arity_mismatch_aborts_witness :
    detectDuplicates [] ["f1"] = none
    ∧ checkDuplicates [] ["f1"] = CheckResult.arityError
    ∧ runModel (fun _ => TransportResult.netFailure) [] ["f1"] =
        RunOutcome.arityMismatchError := by
  have h := arity_mismatch_aborts [] ["f1"] (by simp)
  exact ⟨h.1, h.2.1, h.2.2 (fun _ => TransportResult.netFailure)⟩
